import Mathlib

/-!
Verification development for the statsd exporter core (`exporter.go`).

Modelling conventions:
* Go strings are modelled as `List Char` (named `Str`).  The Go functions
  `strings.Split`, `strings.SplitN`, `strings.Contains` and
  `strings.TrimPrefix` are modelled for the single-character separators the
  source uses.
* Go `float64` values are modelled by `GoFloat`: finite values as exact
  rationals plus the IEEE specials (`±Inf`, `NaN`), with IEEE-faithful
  propagation through the comparisons, divisions, additions and the
  float-to-int conversion the source performs.  `strconv.ParseFloat` is
  modelled with the value/error pair Go returns: specials parse
  successfully, a syntax error yields 0 with the error, overflow yields
  the signed infinity with a range error.  Every concrete numeric claim
  checked here sits at values on which the exact-rational and the IEEE
  evaluations agree.
* Go maps `map[string]string` are modelled as association lists with unique
  keys (`Labels`), insertion modelled by `mapInsert`.
* A Go runtime panic is modelled by `Option`: a function that can panic
  returns `none` on the panicking input and `some` otherwise.
* The prometheus counters bumped by the parser are modelled by the
  `ParseStats` record of increments produced by one call.
-/

/- Batteries marks the `Rat` field operations irreducible, which blocks
`decide` on concrete rational arithmetic; restore the default status. -/
set_option allowUnsafeReducibility true
attribute [local semireducible] Rat.mul Rat.add Rat.inv Rat.sub

/- The float64 overflow bound involves `2 ^ 970`; let concrete evaluation
reduce such exponents. -/
set_option exponentiation.threshold 4000
set_option maxRecDepth 4000

namespace Statsd

/-- Go string, as its list of runes. -/
abbrev Str := List Char

/-- Convenience conversion from a Lean string literal. -/
def strOf (s : String) : Str := s.toList

/-- Go label map `map[string]string`, as an insertion-ordered association
list with unique keys. -/
abbrev Labels := List (Str × Str)

/-- Lookup in an association-list map (Go map read `m[k]`). -/
def lookupA : Labels → Str → Option Str
  | [], _ => none
  | (k', v') :: r, k => if k' = k then some v' else lookupA r k

/-- Map assignment `m[k] = v`: replace the binding of `k` if present,
otherwise append a new one. -/
def mapInsert : Labels → Str → Str → Labels
  | [], k, v => [(k, v)]
  | (k', v') :: r, k, v => if k' = k then (k, v) :: r else (k', v') :: mapInsert r k v

/-- Go `strings.Split(s, sep)` for a one-rune separator.  `Split("", sep)`
is `[""]`. -/
def splitChar : Str → Char → List Str
  | [], _ => [[]]
  | c :: cs, sep =>
    if c = sep then [] :: splitChar cs sep
    else
      match splitChar cs sep with
      | [] => [[c]]
      | h :: t => (c :: h) :: t

/-- Go `strings.SplitN(s, sep, 2)` for a one-rune separator: split at the
first occurrence only. -/
def splitN2 : Str → Char → List Str
  | [], _ => [[]]
  | c :: cs, sep =>
    if c = sep then [[], cs]
    else
      match splitN2 cs sep with
      | [] => [[c]]
      | h :: t => (c :: h) :: t

/-- Whether `s` starts with `p` (Go `strings.HasPrefix`). -/
def startsWith : Str → Str → Bool
  | _, [] => true
  | [], _ :: _ => false
  | a :: as, b :: bs => a = b && startsWith as bs

/-- Go `strings.Contains(s, sub)`. -/
def goContains : Str → Str → Bool
  | [], sub => sub = ([] : Str)
  | c :: cs, sub => startsWith (c :: cs) sub || goContains cs sub

/-- Go `strings.TrimPrefix(t, "#")`: strip one leading `#` if present. -/
def trimHashMark : Str → Str
  | '#' :: r => r
  | t => t

/-- Whether a rune is an ASCII decimal digit. -/
def isDigitChar (c : Char) : Bool := '0' ≤ c && c ≤ '9'

/-- Value of a digit string (most significant first). -/
def digitsToNat (l : List Char) : ℕ :=
  l.foldl (fun a c => 10 * a + (c.toNat - '0'.toNat)) 0

/-- Decimal mantissa of a Go float literal: `digits`, `digits.digits`,
`digits.` or `.digits`.  Returns the digits' value with the fractional
digits appended, and the number of fractional digits. -/
def parseMantissa (l : Str) : Option (ℕ × ℕ) :=
  match splitChar l '.' with
  | [a] => if a ≠ [] ∧ a.all isDigitChar then some (digitsToNat a, 0) else none
  | [a, b] =>
    if (a ≠ [] ∨ b ≠ []) ∧ a.all isDigitChar ∧ b.all isDigitChar then
      some (digitsToNat (a ++ b), b.length)
    else none
  | _ => none

/-- Exponent part of a Go float literal (text after `e`/`E`):
an optional sign and at least one digit. -/
def parseExponent (l : Str) : Option ℤ :=
  let (sign, digits) : ℤ × Str :=
    match l with
    | '+' :: r => (1, r)
    | '-' :: r => (-1, r)
    | r => (1, r)
  if digits ≠ [] ∧ digits.all isDigitChar then some (sign * digitsToNat digits) else none

/-- A Go `float64` value: finite values idealized as exact rationals,
plus the IEEE specials.  Finite arithmetic is exact in this model
(float64 rounding, and overflow or underflow of intermediate finite
results, are outside it); the special values and their propagation follow
IEEE as Go implements it. -/
inductive GoFloat
  | finite (q : ℚ)
  | posInf
  | negInf
  | nan
deriving DecidableEq

/-- The Go comparison `x < 0.0`: false on NaN, true on `-Inf`. -/
def GoFloat.ltZero : GoFloat → Bool
  | .finite q => decide (q < 0)
  | .posInf => false
  | .negInf => true
  | .nan => false

/-- IEEE addition as Go evaluates `x + y`. -/
def GoFloat.add : GoFloat → GoFloat → GoFloat
  | .nan, _ => .nan
  | _, .nan => .nan
  | .posInf, .negInf => .nan
  | .negInf, .posInf => .nan
  | .posInf, _ => .posInf
  | _, .posInf => .posInf
  | .negInf, _ => .negInf
  | _, .negInf => .negInf
  | .finite a, .finite b => .finite (a + b)

/-- IEEE division as Go evaluates `x / y`.  The model has a single zero,
read as `+0`: a finite value divided by an infinity is 0, a nonzero
finite value divided by 0 is the signed infinity, `0/0` and `Inf/Inf`
are NaN.  A finite quotient is exact (no overflow to infinity of the
division result itself). -/
def GoFloat.div : GoFloat → GoFloat → GoFloat
  | .nan, _ => .nan
  | _, .nan => .nan
  | .posInf, .posInf => .nan
  | .posInf, .negInf => .nan
  | .negInf, .posInf => .nan
  | .negInf, .negInf => .nan
  | .posInf, .finite q => if q < 0 then .negInf else .posInf
  | .negInf, .finite q => if q < 0 then .posInf else .negInf
  | .finite _, .posInf => .finite 0
  | .finite _, .negInf => .finite 0
  | .finite a, .finite b =>
    if b = 0 then
      if a = 0 then .nan else if a < 0 then .negInf else .posInf
    else .finite (a / b)

/-- Truncation of a rational toward zero, the semantics of Go's
float-to-int conversion `int(x)` (for finite `x` in range). -/
def truncQ (q : ℚ) : ℤ :=
  if q < 0 then -(q.num.natAbs / q.den : ℕ) else (q.num.natAbs / q.den : ℕ)

/-- Go conversion `int(x)` on a 64-bit platform: truncation toward zero
for finite values whose truncation fits in int64.  For NaN, infinities
and out-of-range values the Go spec leaves the result
implementation-defined; the common architectures (amd64, arm64) yield
`math.MinInt64`, which is what this model uses — the exporter only feeds
the result to a loop bound, where every such value means zero
iterations. -/
def GoFloat.toInt64 : GoFloat → ℤ
  | .finite q =>
    if truncQ q < -(2 ^ 63) ∨ 2 ^ 63 - 1 < truncQ q then -(2 ^ 63) else truncQ q
  | _ => -(2 ^ 63)

/-- ASCII lower-casing of one rune (strconv's `equalIgnoreCase`
normalization). -/
def toLowerChar (c : Char) : Char :=
  if 'A' ≤ c ∧ c ≤ 'Z' then Char.ofNat (c.toNat + 32) else c

/-- ASCII lower-casing of a string. -/
def lowerStr (s : Str) : Str := s.map toLowerChar

/-- Model of strconv's `special`: an explicitly signed infinity literal,
an unsigned infinity literal, or an unsigned NaN literal, all
case-insensitive; these parse successfully (nil error). -/
def parseSpecial (s : Str) : Option GoFloat :=
  match s with
  | '+' :: r =>
    if lowerStr r = strOf "inf" ∨ lowerStr r = strOf "infinity" then some .posInf else none
  | '-' :: r =>
    if lowerStr r = strOf "inf" ∨ lowerStr r = strOf "infinity" then some .negInf else none
  | r =>
    if lowerStr r = strOf "inf" ∨ lowerStr r = strOf "infinity" then some .posInf
    else if lowerStr r = strOf "nan" then some .nan else none

/-- Powers of ten as exact rationals (computed through `Nat.pow` so that
concrete evaluation stays shallow). -/
def pow10 (e : ℤ) : ℚ :=
  if 0 ≤ e then ((10 ^ e.toNat : ℕ) : ℚ) else (1 : ℚ) / ((10 ^ (-e).toNat : ℕ) : ℚ)

/-- The smallest magnitude that float64 rounding carries to infinity,
`(2^54 - 1) * 2^970` (the midpoint between the largest finite float64 and
`2^1024`, which ties to even, i.e. to infinity).  A syntactically valid
decimal at or beyond it gets the range error Go returns together with the
signed infinity. -/
def float64OverflowBound : ℚ := (((2 ^ 54 - 1) * 2 ^ 970 : ℕ) : ℚ)

/-- Model of Go `strconv.ParseFloat(s, 64)` (the strconv of this
repository's era: no hex float literals, no digit-group underscores),
returning the value and the `err != nil` flag exactly as the callers
consume them: infinity and NaN literals parse successfully; a syntax
error returns 0 together with the error; a decimal whose magnitude
rounds to infinity returns the signed infinity together with a range
error.  Finite in-range values are idealized to the exact rational
(float64 rounding — including the rounding of denormally small values
toward zero, which Go performs without an error — is outside the
model). -/
def parseGoFloat (s : Str) : GoFloat × Bool :=
  match parseSpecial s with
  | some f => (f, false)
  | none =>
    let (sign, r1) : ℚ × Str :=
      match s with
      | '+' :: r => (1, r)
      | '-' :: r => (-1, r)
      | r => (1, r)
    if r1 = [] then (.finite 0, true)
    else
      let mant := r1.takeWhile (fun c => c ≠ 'e' ∧ c ≠ 'E')
      let rest := r1.dropWhile (fun c => c ≠ 'e' ∧ c ≠ 'E')
      match parseMantissa mant with
      | none => (.finite 0, true)
      | some (m, d) =>
        let e : Option ℤ :=
          match rest with
          | [] => some 0
          | _ :: expStr => parseExponent expStr
        match e with
        | none => (.finite 0, true)
        | some e =>
          let q : ℚ := sign * (m : ℚ) * pow10 (e - d)
          if float64OverflowBound ≤ q then (.posInf, true)
          else if q ≤ -float64OverflowBound then (.negInf, true)
          else (.finite q, false)

/-- Increments of the parser-side prometheus counters produced by one call
(`samplesReceived`, `tagsReceived`, `tagErrors` and the per-cause
`sampleErrors` vector of `exporter.go`). -/
structure ParseStats where
  samplesReceived : ℕ
  tagsReceived : ℕ
  tagErrors : ℕ
  malformedLine : ℕ
  malformedComponent : ℕ
  malformedValue : ℕ
  illegalSampleFactor : ℕ
  invalidSampleFactor : ℕ
  illegalEvent : ℕ
deriving DecidableEq

/-- No counter bumped yet. -/
def ParseStats.zero : ParseStats := ⟨0, 0, 0, 0, 0, 0, 0, 0, 0⟩

def ParseStats.incSamplesReceived (s : ParseStats) : ParseStats :=
  { s with samplesReceived := s.samplesReceived + 1 }

def ParseStats.incTagsReceived (s : ParseStats) : ParseStats :=
  { s with tagsReceived := s.tagsReceived + 1 }

def ParseStats.incTagErrors (s : ParseStats) : ParseStats :=
  { s with tagErrors := s.tagErrors + 1 }

def ParseStats.incMalformedLine (s : ParseStats) : ParseStats :=
  { s with malformedLine := s.malformedLine + 1 }

def ParseStats.incMalformedComponent (s : ParseStats) : ParseStats :=
  { s with malformedComponent := s.malformedComponent + 1 }

def ParseStats.incMalformedValue (s : ParseStats) : ParseStats :=
  { s with malformedValue := s.malformedValue + 1 }

def ParseStats.incIllegalSampleFactor (s : ParseStats) : ParseStats :=
  { s with illegalSampleFactor := s.illegalSampleFactor + 1 }

def ParseStats.incInvalidSampleFactor (s : ParseStats) : ParseStats :=
  { s with invalidSampleFactor := s.invalidSampleFactor + 1 }

def ParseStats.addIllegalEvent (s : ParseStats) (n : ℕ) : ParseStats :=
  { s with illegalEvent := s.illegalEvent + n }

/-- Metric kinds of the exporter (`metricType` of the mapper). -/
inductive MetricType
  | counter
  | gauge
  | timer
deriving DecidableEq

/-- The closed set of event kinds (`CounterEvent`, `GaugeEvent`,
`TimerEvent`), with the shared name/value/label projections below. -/
inductive Event
  | counter (metricName : Str) (value : GoFloat) (labels : Labels)
  | gauge (metricName : Str) (value : GoFloat) (relative : Bool) (labels : Labels)
  | timer (metricName : Str) (value : GoFloat) (labels : Labels)
deriving DecidableEq

def Event.metricName : Event → Str
  | .counter n _ _ => n
  | .gauge n _ _ _ => n
  | .timer n _ _ => n

def Event.value : Event → GoFloat
  | .counter _ v _ => v
  | .gauge _ v _ _ => v
  | .timer _ v _ => v

def Event.labels : Event → Labels
  | .counter _ _ l => l
  | .gauge _ _ _ l => l
  | .timer _ _ l => l

def Event.metricType : Event → MetricType
  | .counter _ _ _ => .counter
  | .gauge _ _ _ _ => .gauge
  | .timer _ _ _ => .timer

/-- Whether a rune is legal in a prometheus metric name
(the complement of the source's `illegalCharsRE`, `[^a-zA-Z0-9_]`). -/
def isLegalMetricChar (c : Char) : Bool :=
  ('a' ≤ c && c ≤ 'z') || ('A' ≤ c && c ≤ 'Z') || ('0' ≤ c && c ≤ '9') || c = '_'

/-- Model of `escapeMetricName`: prepend `_` when the name starts with a
digit, then replace every illegal rune with `_`.  The source indexes
`metricName[0]` unconditionally, so an empty name makes the Go function
panic with an index-out-of-range error; the panic is modelled by `none`. -/
def escapeMetricName : Str → Option Str
  | [] => none
  | c :: cs =>
    let m := if '0' ≤ c ∧ c ≤ '9' then '_' :: c :: cs else c :: cs
    some (m.map fun ch => if isLegalMetricChar ch then ch else '_')

/-- Loop body of `parseDogStatsDTagsToLabels` over the `,`-separated tags:
strip a leading `#`, split on the first `:`; a tag with no `:` or an empty
value is counted as a tag error and skipped, any other tag becomes a label
under its escaped key.  Escaping an empty key panics (`none`). -/
def parseTagsGo : List Str → Labels → ParseStats → Option (Labels × ParseStats)
  | [], labels, stats => some (labels, stats)
  | tag :: rest, labels, stats =>
    let t := trimHashMark tag
    match splitN2 t ':' with
    | [k, v] =>
      if v.length = 0 then parseTagsGo rest labels stats.incTagErrors
      else
        match escapeMetricName k with
        | none => none
        | some ek => parseTagsGo rest (mapInsert labels ek v) stats
    | _ => parseTagsGo rest labels stats.incTagErrors

/-- Model of `parseDogStatsDTagsToLabels`. -/
def parseDogStatsDTagsToLabels (stats : ParseStats) (component : Str) :
    Option (Labels × ParseStats) :=
  parseTagsGo (splitChar component ',') [] stats.incTagsReceived

/-- Model of `buildEvent`.  `none` covers both error returns (`s` sets are
unsupported, and unknown stat types); `lineToEvents` counts either one as
an `illegal_event` sample error. -/
def buildEvent (statType metric : Str) (value : GoFloat) (relative : Bool) (labels : Labels) :
    Option Event :=
  if statType = strOf "c" then some (Event.counter metric value labels)
  else if statType = strOf "g" then some (Event.gauge metric value relative labels)
  else if statType = strOf "ms" ∨ statType = strOf "h" then some (Event.timer metric value labels)
  else none

/-- The per-sample mutable locals of the `samples:` loop of
`lineToEvents`: the (possibly rescaled) value, the sampling factor, the
event repeat count and the parsed DogStatsD labels. -/
structure SampleCtx where
  value : GoFloat
  samplingFactor : GoFloat
  multiplyEvents : ℤ
  labels : Labels
deriving DecidableEq

/-- One iteration of the loop over `components[2:]` in `lineToEvents`
(the `switch component[0]` block).  An `@` factor is legal only for `c`
and `ms`; `ParseFloat` assigns both the factor and the error — a failed
parse is counted as an invalid factor but processing continues with the
value returned alongside the error (0 on a syntax error, the signed
infinity on a range error); a factor equal to 0 is then normalized to 1;
for `c` the value is divided by the factor and for `ms` the repeat count
becomes `int(1 / factor)`.  A `#` component replaces the labels with the
parsed tags.  Anything else is counted as an invalid factor or tag
section.  Indexing `component[0]` on an empty component would panic; the
caller's emptiness pre-check keeps that branch unreachable. -/
def processComponent (statType : Str) (ctx : SampleCtx) (stats : ParseStats) :
    Str → Option (SampleCtx × ParseStats)
  | [] => none
  | c :: rest =>
    if c = '@' then
      if statType ≠ strOf "c" ∧ statType ≠ strOf "ms" then
        some (ctx, stats.incIllegalSampleFactor)
      else
        let (samplingFactor, sfErr) := parseGoFloat rest
        let stats := if sfErr then stats.incInvalidSampleFactor else stats
        let samplingFactor :=
          if samplingFactor = GoFloat.finite 0 then GoFloat.finite 1 else samplingFactor
        let ctx := { ctx with samplingFactor := samplingFactor }
        let ctx :=
          if statType = strOf "c" then { ctx with value := ctx.value.div samplingFactor }
          else if statType = strOf "ms" then
            { ctx with multiplyEvents := ((GoFloat.finite 1).div samplingFactor).toInt64 }
          else ctx
        some (ctx, stats)
    else if c = '#' then
      match parseDogStatsDTagsToLabels stats (c :: rest) with
      | none => none
      | some (labels, stats) => some ({ ctx with labels := labels }, stats)
    else
      some (ctx, stats.incInvalidSampleFactor)

/-- The loop over `components[2:]`, threading the sample context. -/
def processComponents (statType : Str) :
    List Str → SampleCtx → ParseStats → Option (SampleCtx × ParseStats)
  | [], ctx, stats => some (ctx, stats)
  | comp :: rest, ctx, stats =>
    match processComponent statType ctx stats comp with
    | none => none
    | some (ctx, stats) => processComponents statType rest ctx stats

/-- The relative marker of a value string: whether it starts with `+` or
`-` (`strings.Index(valueStr, "+") == 0 || strings.Index(valueStr, "-") == 0`). -/
def hasSignMarker : Str → Bool
  | '+' :: _ => true
  | '-' :: _ => true
  | _ => false

/-- One iteration of the `samples:` loop of `lineToEvents`: split the
sample on `|` into 2–4 components, read the relative marker and the value,
reject any empty optional component (aborting the whole sample), process
the optional components, then emit the built event `multiplyEvents` times.
The build loop calls `buildEvent` once per iteration; since it is
deterministic, a failing build contributes `multiplyEvents` increments of
the `illegal_event` counter and no events. -/
def processSample (metric : Str) (stats : ParseStats) (sample : Str) :
    Option (List Event × ParseStats) :=
  let stats := stats.incSamplesReceived
  match splitChar sample '|' with
  | valueStr :: statType :: rest2 =>
    if rest2.length > 2 then some ([], stats.incMalformedComponent)
    else
      let relative := hasSignMarker valueStr
      match parseGoFloat valueStr with
      | (_, true) => some ([], stats.incMalformedValue)
      | (value, false) =>
        if rest2.any (fun comp => comp.isEmpty) then some ([], stats.incMalformedComponent)
        else
          match processComponents statType rest2 ⟨value, GoFloat.finite 1, 1, []⟩ stats with
          | none => none
          | some (ctx, stats) =>
            match buildEvent statType metric ctx.value relative ctx.labels with
            | some ev => some (List.replicate ctx.multiplyEvents.toNat ev, stats)
            | none => some ([], stats.addIllegalEvent ctx.multiplyEvents.toNat)
  | _ => some ([], stats.incMalformedComponent)

/-- The `samples:` loop, accumulating events and counter increments. -/
def processSamples (metric : Str) :
    List Str → List Event × ParseStats → Option (List Event × ParseStats)
  | [], acc => some acc
  | s :: ss, (events, stats) =>
    match processSample metric stats s with
    | none => none
    | some (evs, stats) => processSamples metric ss (events ++ evs, stats)

/-- Model of `utf8.ValidString`.  `Str` is a list of Unicode scalar
values, so every representable line is valid UTF-8; byte-level invalidity
is outside this model. -/
def utf8ValidString (_ : Str) : Bool := true

/-- Model of `lineToEvents`.  `none` models a Go runtime panic; otherwise
the events of the line are returned together with the counter increments
the call produced. -/
def lineToEvents (line : Str) : Option (List Event × ParseStats) :=
  if line = [] then some ([], ParseStats.zero)
  else
    match splitN2 line ':' with
    | metric :: rest :: _ =>
      if metric = [] ∨ utf8ValidString line = false then
        some ([], ParseStats.zero.incMalformedLine)
      else
        let samples :=
          if goContains rest (strOf "|#") then [rest] else splitChar rest ':'
        processSamples metric samples ([], ParseStats.zero)
    | _ => some ([], ParseStats.zero.incMalformedLine)

/-! Fingerprinting (`hashNameAndLabels`).  The hash is 64-bit FNV-1a over
the UTF-8 bytes of the name followed by the 8 big-endian bytes of
`model.LabelsToSignature(labels)`.  `LabelsToSignature` (from
`prometheus/common/model`, modelled here from its published
implementation) is itself FNV-1a over the sorted label names, each
followed by a `0xff` separator byte, its value and another separator;
the empty label set hashes to the FNV offset basis. -/

/-- The FNV-64 prime. -/
def fnvPrime : ℕ := 1099511628211

/-- The FNV-64 offset basis (also `emptyLabelSignature`). -/
def fnvOffset : ℕ := 14695981039346656037

/-- Fold bytes into a 64-bit FNV-1a state. -/
def fnvAdd (h : ℕ) (bytes : List ℕ) : ℕ :=
  bytes.foldl (fun h b => ((h ^^^ b) * fnvPrime) % 2 ^ 64) h

/-- UTF-8 encoding of one Unicode scalar value. -/
def utf8Bytes (c : Char) : List ℕ :=
  let n := c.toNat
  if n < 0x80 then [n]
  else if n < 0x800 then [0xC0 + n / 0x40, 0x80 + n % 0x40]
  else if n < 0x10000 then [0xE0 + n / 0x1000, 0x80 + n / 0x40 % 0x40, 0x80 + n % 0x40]
  else [0xF0 + n / 0x40000, 0x80 + n / 0x1000 % 0x40, 0x80 + n / 0x40 % 0x40, 0x80 + n % 0x40]

/-- UTF-8 bytes of a Go string. -/
def strBytes (s : Str) : List ℕ := (s.map utf8Bytes).flatten

/-- The `model.SeparatorByte` (`0xff`). -/
def sepByte : ℕ := 0xff

/-- Go `sort.Strings`: bytewise-lexicographic sort, which on valid UTF-8
coincides with the scalar-value lexicographic order of `List Char`. -/
def sortStrings (l : List Str) : List Str := List.insertionSort (· ≤ ·) l

/-- Model of `model.LabelsToSignature`. -/
def labelsToSignature (labels : Labels) : ℕ :=
  if labels = [] then fnvOffset
  else
    (sortStrings (labels.map Prod.fst)).foldl
      (fun sum n =>
        fnvAdd (fnvAdd (fnvAdd (fnvAdd sum (strBytes n)) [sepByte])
          (strBytes ((lookupA labels n).getD []))) [sepByte])
      fnvOffset

/-- The 8 big-endian bytes of a 64-bit value
(`binary.BigEndian.PutUint64`). -/
def beBytes8 (n : ℕ) : List ℕ :=
  [n / 2 ^ 56 % 256, n / 2 ^ 48 % 256, n / 2 ^ 40 % 256, n / 2 ^ 32 % 256,
   n / 2 ^ 24 % 256, n / 2 ^ 16 % 256, n / 2 ^ 8 % 256, n % 256]

/-- Model of `hashNameAndLabels`.  The source reuses a shared hasher and
buffer; after the two `Reset` calls the result is a pure function of the
name and labels, which is what this definition expresses. -/
def hashNameAndLabels (name : Str) (labels : Labels) : ℕ :=
  fnvAdd (fnvAdd fnvOffset (strBytes name)) (beBytes8 (labelsToSignature labels))

/-! Metric containers and the event dispatcher.  The prometheus aggregation
objects are modelled by records carrying their construction parameters and
their aggregate state (a counter/gauge value, or the list of observed
values).  A Go handle is a pointer into the container, so an update
through a handle is modelled by rewriting the container entry under the
same fingerprint key.  `prometheus.Register` belongs to the client
library, not to this repository; its outcome is abstracted by a
`RegOracle` predicate over the candidate collector's identity (a failed
registration leaves the registry unchanged, so consecutive attempts for
the same identity see the same outcome). -/

structure Counter where
  name : Str
  help : Str
  constLabels : Labels
  value : GoFloat
deriving DecidableEq

structure Gauge where
  name : Str
  help : Str
  constLabels : Labels
  value : GoFloat
deriving DecidableEq

/-- A quantile/acceptable-error pair of a summary objective. -/
structure Quantile where
  quantile : ℚ
  error : ℚ
deriving DecidableEq

structure Summary where
  name : Str
  help : Str
  constLabels : Labels
  objectives : List (ℚ × ℚ)
  observations : List GoFloat
deriving DecidableEq

structure Histogram where
  name : Str
  help : Str
  constLabels : Labels
  buckets : List ℚ
  observations : List GoFloat
deriving DecidableEq

def Counter.add (c : Counter) (v : GoFloat) : Counter := { c with value := c.value.add v }

def Gauge.add (g : Gauge) (v : GoFloat) : Gauge := { g with value := g.value.add v }

def Gauge.set (g : Gauge) (v : GoFloat) : Gauge := { g with value := v }

def Summary.observe (s : Summary) (v : GoFloat) : Summary :=
  { s with observations := s.observations ++ [v] }

def Histogram.observe (h : Histogram) (v : GoFloat) : Histogram :=
  { h with observations := h.observations ++ [v] }

/-- The mapper's action (`actionTypeDrop`; the zero value `""` compares
unequal to `drop`, which is all `Listen` tests, so it is folded into
`map`). -/
inductive ActionType
  | map
  | drop
deriving DecidableEq

/-- The mapper's timer representation choice. -/
inductive TimerType
  | default_
  | summary
  | histogram
deriving DecidableEq

/-- The fields of `metricMapping` the dispatcher reads. -/
structure MetricMapping where
  name : Str
  action : ActionType
  helpText : Str
  timerType : TimerType
  quantiles : List Quantile
  buckets : List ℚ
deriving DecidableEq

/-- The Go zero value `&metricMapping{}` that `Listen` substitutes for a
nil mapping. -/
def MetricMapping.zero : MetricMapping := ⟨[], .map, [], .default_, [], []⟩

/-- The mapper's defaults (`mapper.Defaults`). -/
structure MapperDefaults where
  timerType : TimerType
  quantiles : List Quantile
  buckets : List ℚ

/-- The naming/labelling policy consumed by the dispatcher
(`metricMapper.getMapping` plus the defaults); external to the core, so
abstracted as a function. -/
structure Mapper where
  getMapping : Str → MetricType → Option MetricMapping × Labels × Bool
  defaults : MapperDefaults

/-- Lookup in a container's `Elements` map (keyed by fingerprint). -/
def lookupE {α : Type} : List (ℕ × α) → ℕ → Option α
  | [], _ => none
  | (k, a) :: r, h => if k = h then some a else lookupE r h

/-- Assignment `c.Elements[hash] = x`. -/
def insertE {α : Type} : List (ℕ × α) → ℕ → α → List (ℕ × α)
  | [], h, a => [(h, a)]
  | (k, b) :: r, h, a => if k = h then (h, a) :: r else (k, b) :: insertE r h a

/-- Outcome of `prometheus.Register` for a candidate collector identity:
`true` means registration succeeds. -/
def RegOracle := Str → Labels → Bool

/-- Decidable equality for `Except` results. -/
instance exceptDecEq {ε α : Type} [DecidableEq ε] [DecidableEq α] :
    DecidableEq (Except ε α) := fun
  | Except.error e, Except.error f =>
    if h : e = f then isTrue (by subst h; rfl)
    else isFalse fun hc => h (Except.error.inj hc)
  | Except.error _, Except.ok _ => isFalse fun hc => Except.noConfusion hc
  | Except.ok _, Except.error _ => isFalse fun hc => Except.noConfusion hc
  | Except.ok x, Except.ok y =>
    if h : x = y then isTrue (by subst h; rfl)
    else isFalse fun hc => h (Except.ok.inj hc)

/-- Model of `CounterContainer.Get`: on a cache miss, construct, register,
and cache only after a successful registration. -/
def CounterContainer.get (reg : RegOracle) (c : List (ℕ × Counter))
    (metricName : Str) (labels : Labels) (help : Str) :
    Except Unit Counter × List (ℕ × Counter) :=
  let h := hashNameAndLabels metricName labels
  match lookupE c h with
  | some counter => (Except.ok counter, c)
  | none =>
    let counter : Counter := ⟨metricName, help, labels, GoFloat.finite 0⟩
    if reg metricName labels then (Except.ok counter, insertE c h counter)
    else (Except.error (), c)

/-- Model of `GaugeContainer.Get`, same shape as the counter container. -/
def GaugeContainer.get (reg : RegOracle) (c : List (ℕ × Gauge))
    (metricName : Str) (labels : Labels) (help : Str) :
    Except Unit Gauge × List (ℕ × Gauge) :=
  let h := hashNameAndLabels metricName labels
  match lookupE c h with
  | some gauge => (Except.ok gauge, c)
  | none =>
    let gauge : Gauge := ⟨metricName, help, labels, GoFloat.finite 0⟩
    if reg metricName labels then (Except.ok gauge, insertE c h gauge)
    else (Except.error (), c)

/-- Model of `SummaryContainer.Get`: quantiles come from the mapping when
present and non-empty, else from the defaults (the Go objectives map is
modelled as the list of quantile/error pairs); register, then cache on
success. -/
def SummaryContainer.get (reg : RegOracle) (defaults : MapperDefaults)
    (c : List (ℕ × Summary)) (metricName : Str) (labels : Labels) (help : Str)
    (mapping : Option MetricMapping) :
    Except Unit Summary × List (ℕ × Summary) :=
  let h := hashNameAndLabels metricName labels
  match lookupE c h with
  | some summary => (Except.ok summary, c)
  | none =>
    let quantiles :=
      match mapping with
      | some m => if m.quantiles ≠ [] then m.quantiles else defaults.quantiles
      | none => defaults.quantiles
    let objectives := quantiles.map fun q => (q.quantile, q.error)
    let summary : Summary := ⟨metricName, help, labels, objectives, []⟩
    if reg metricName labels then (Except.ok summary, insertE c h summary)
    else (Except.error (), c)

/-- Model of `HistogramContainer.Get`: buckets come from the mapping when
present and non-empty, else from the defaults.  Unlike the three other
containers, the source stores the new histogram into `c.Elements` BEFORE
attempting registration, so the object stays cached even when
registration fails; the model reproduces that order. -/
def HistogramContainer.get (reg : RegOracle) (defaults : MapperDefaults)
    (c : List (ℕ × Histogram)) (metricName : Str) (labels : Labels) (help : Str)
    (mapping : Option MetricMapping) :
    Except Unit Histogram × List (ℕ × Histogram) :=
  let h := hashNameAndLabels metricName labels
  match lookupE c h with
  | some histogram => (Except.ok histogram, c)
  | none =>
    let buckets :=
      match mapping with
      | some m => if m.buckets ≠ [] then m.buckets else defaults.buckets
      | none => defaults.buckets
    let histogram : Histogram := ⟨metricName, help, labels, buckets, []⟩
    let c2 := insertE c h histogram
    if reg metricName labels then (Except.ok histogram, c2)
    else (Except.error (), c2)

/-- The exporter's four containers. -/
structure Exporter where
  counters : List (ℕ × Counter)
  gauges : List (ℕ × Gauge)
  summaries : List (ℕ × Summary)
  histograms : List (ℕ × Histogram)
deriving DecidableEq

/-- The empty exporter (`NewExporter`). -/
def Exporter.empty : Exporter := ⟨[], [], [], []⟩

/-- Increments of the dispatcher-side prometheus counters
(`eventsUnmapped`, `eventStats`, `conflictingEventStats`) produced while
handling events. -/
structure DispatchStats where
  eventsUnmapped : ℕ
  illegalNegativeCounter : ℕ
  counterEvents : ℕ
  gaugeEvents : ℕ
  timerEvents : ℕ
  conflictingCounter : ℕ
  conflictingGauge : ℕ
  conflictingTimer : ℕ
deriving DecidableEq

def DispatchStats.zero : DispatchStats := ⟨0, 0, 0, 0, 0, 0, 0, 0⟩

def DispatchStats.incEventsUnmapped (s : DispatchStats) : DispatchStats :=
  { s with eventsUnmapped := s.eventsUnmapped + 1 }

def DispatchStats.incIllegalNegativeCounter (s : DispatchStats) : DispatchStats :=
  { s with illegalNegativeCounter := s.illegalNegativeCounter + 1 }

def DispatchStats.incCounterEvents (s : DispatchStats) : DispatchStats :=
  { s with counterEvents := s.counterEvents + 1 }

def DispatchStats.incGaugeEvents (s : DispatchStats) : DispatchStats :=
  { s with gaugeEvents := s.gaugeEvents + 1 }

def DispatchStats.incTimerEvents (s : DispatchStats) : DispatchStats :=
  { s with timerEvents := s.timerEvents + 1 }

def DispatchStats.incConflictingCounter (s : DispatchStats) : DispatchStats :=
  { s with conflictingCounter := s.conflictingCounter + 1 }

def DispatchStats.incConflictingGauge (s : DispatchStats) : DispatchStats :=
  { s with conflictingGauge := s.conflictingGauge + 1 }

def DispatchStats.incConflictingTimer (s : DispatchStats) : DispatchStats :=
  { s with conflictingTimer := s.conflictingTimer + 1 }

/-- The `defaultHelp` constant. -/
def defaultHelp : Str := strOf "Metric autogenerated by statsd_exporter."

/-- Overlay of mapping-provided labels onto the event's labels
(`prometheusLabels[label] = value` for each mapping label). -/
def overlayLabels (base extra : Labels) : Labels :=
  extra.foldl (fun m kv => mapInsert m kv.1 kv.2) base

/-- The `case timerTypeHistogram` arm of the timer switch in
`Exporter.Listen`: fetch/create the histogram and observe the millisecond
value divided by 1000 (prometheus presumes seconds); a get error is
counted as a conflicting timer event and nothing is recorded. -/
def handleTimerHistogram (mapper : Mapper) (reg : RegOracle) (b : Exporter)
    (stats : DispatchStats) (metricName : Str) (prometheusLabels : Labels)
    (help : Str) (mapping : MetricMapping) (v : GoFloat) : Exporter × DispatchStats :=
  match HistogramContainer.get reg mapper.defaults b.histograms metricName
      prometheusLabels help (some mapping) with
  | (Except.ok histogram, hs) =>
    ({ b with histograms := insertE hs (hashNameAndLabels metricName prometheusLabels) (histogram.observe (v.div (GoFloat.finite 1000))) },
      stats.incTimerEvents)
  | (Except.error _, hs) => ({ b with histograms := hs }, stats.incConflictingTimer)

/-- The `case timerTypeDefault, timerTypeSummary` arm of the timer switch:
fetch/create the summary and observe the raw millisecond value. -/
def handleTimerSummary (mapper : Mapper) (reg : RegOracle) (b : Exporter)
    (stats : DispatchStats) (metricName : Str) (prometheusLabels : Labels)
    (help : Str) (mapping : MetricMapping) (v : GoFloat) : Exporter × DispatchStats :=
  match SummaryContainer.get reg mapper.defaults b.summaries metricName
      prometheusLabels help (some mapping) with
  | (Except.ok summary, ss) =>
    ({ b with summaries := insertE ss (hashNameAndLabels metricName prometheusLabels) (summary.observe v) },
      stats.incTimerEvents)
  | (Except.error _, ss) => ({ b with summaries := ss }, stats.incConflictingTimer)

/-- The `case *TimerEvent` block of `Exporter.Listen`: resolve the
effective timer representation (the mapping's timer type, falling back to
the mapper default when it is the zero value), then observe into a
histogram — dividing the millisecond value by 1000 — or into a summary —
the raw value.  The Go `switch` panics on a timer-type string outside the
three known constants; `TimerType` is closed, so that branch has no
counterpart here. -/
def handleTimerEvent (mapper : Mapper) (reg : RegOracle) (b : Exporter)
    (stats : DispatchStats) (metricName : Str) (prometheusLabels : Labels)
    (help : Str) (mapping : MetricMapping) (v : GoFloat) : Exporter × DispatchStats :=
  let t := mapping.timerType
  let t := if t = TimerType.default_ then mapper.defaults.timerType else t
  match t with
  | TimerType.histogram =>
    handleTimerHistogram mapper reg b stats metricName prometheusLabels help mapping v
  | _ =>
    handleTimerSummary mapper reg b stats metricName prometheusLabels help mapping v

/-- One iteration of the event loop of `Exporter.Listen`: resolve the
mapping, honour a drop action, escape the metric name (a panic in
`escapeMetricName` propagates as `none`), overlay mapping labels, then
route by event kind.  A negative-valued counter event is rejected before
any container access. -/
def handleEvent (mapper : Mapper) (reg : RegOracle) (b : Exporter)
    (stats : DispatchStats) (event : Event) : Option (Exporter × DispatchStats) :=
  match mapper.getMapping event.metricName event.metricType with
  | (mappingOpt, labels, present) =>
    let mapping := mappingOpt.getD MetricMapping.zero
    if mapping.action = ActionType.drop then some (b, stats)
    else
      let help := if mapping.helpText = [] then defaultHelp else mapping.helpText
      let (metricNameOpt, prometheusLabels, stats) :
          Option Str × Labels × DispatchStats :=
        if present then
          (escapeMetricName mapping.name, overlayLabels event.labels labels, stats)
        else (escapeMetricName event.metricName, event.labels, stats.incEventsUnmapped)
      match metricNameOpt with
      | none => none
      | some metricName =>
        let h := hashNameAndLabels metricName prometheusLabels
        match event with
        | Event.counter _ v _ =>
          if v.ltZero then some (b, stats.incIllegalNegativeCounter)
          else
            match CounterContainer.get reg b.counters metricName prometheusLabels help with
            | (Except.ok counter, cs) =>
              some ({ b with counters := insertE cs h (counter.add v) },
                stats.incCounterEvents)
            | (Except.error _, cs) =>
              some ({ b with counters := cs }, stats.incConflictingCounter)
        | Event.gauge _ v relative _ =>
          match GaugeContainer.get reg b.gauges metricName prometheusLabels help with
          | (Except.ok gauge, gs) =>
            some
              ({ b with gauges := insertE gs h (if relative then gauge.add v else gauge.set v) },
                stats.incGaugeEvents)
          | (Except.error _, gs) =>
            some ({ b with gauges := gs }, stats.incConflictingGauge)
        | Event.timer _ v _ =>
          some (handleTimerEvent mapper reg b stats metricName prometheusLabels
            help mapping v)

/-- The loop of `Exporter.Listen` over one event batch. -/
def handleEvents (mapper : Mapper) (reg : RegOracle) :
    List Event → Exporter → DispatchStats → Option (Exporter × DispatchStats)
  | [], b, stats => some (b, stats)
  | ev :: evs, b, stats =>
    match handleEvent mapper reg b stats ev with
    | none => none
    | some (b, stats) => handleEvents mapper reg evs b stats

/-- The `sep`-joined concatenation of `xs` (inverse image of
`strings.Split`), used to state properties of multi-sample lines. -/
def joinSep (sep : Char) : List Str → Str
  | [] => []
  | [s] => s
  | s :: rest => s ++ sep :: joinSep sep rest

/-- Multiset of all values observed across a container's entries, the
aggregate observation state the dispatcher may change. -/
def obsSum {α : Type} (f : α → List GoFloat) (es : List (ℕ × α)) : Multiset GoFloat :=
  (es.map fun p => ((f p.2 : List GoFloat) : Multiset GoFloat)).sum

end Statsd

namespace Statsd

/-! Supporting lemmas about the Go string primitives. -/

theorem splitN2_append (sep : Char) (a b : Str) (h : sep ∉ a) :
    splitN2 (a ++ sep :: b) sep = [a, b] := by
  induction a with
  | nil => simp [splitN2]
  | cons c cs ih =>
    rw [List.mem_cons, not_or] at h
    rw [List.cons_append, splitN2, if_neg (fun hc => h.1 hc.symm), ih h.2]

theorem splitChar_of_not_mem (sep : Char) (s : Str) (h : sep ∉ s) :
    splitChar s sep = [s] := by
  induction s with
  | nil => rfl
  | cons c cs ih =>
    rw [List.mem_cons, not_or] at h
    rw [splitChar, if_neg (fun hc => h.1 hc.symm), ih h.2]

theorem splitChar_append (sep : Char) (a b : Str) (h : sep ∉ a) :
    splitChar (a ++ sep :: b) sep = a :: splitChar b sep := by
  induction a with
  | nil => simp [splitChar]
  | cons c cs ih =>
    rw [List.mem_cons, not_or] at h
    rw [List.cons_append, splitChar, if_neg (fun hc => h.1 hc.symm), ih h.2]

theorem splitChar_ne_nil (s : Str) (sep : Char) : splitChar s sep ≠ [] := by
  cases s with
  | nil => simp [splitChar]
  | cons c cs =>
    rw [splitChar]
    split
    · simp
    · cases hcs : splitChar cs sep <;> simp

theorem joinSep_cons_cons (sep : Char) (a b : Str) (rest : List Str) :
    joinSep sep (a :: b :: rest) = a ++ sep :: joinSep sep (b :: rest) := rfl

theorem splitChar_joinSep (sep : Char) (xs : List Str) (hne : xs ≠ [])
    (h : ∀ s ∈ xs, sep ∉ s) : splitChar (joinSep sep xs) sep = xs := by
  induction xs with
  | nil => exact absurd rfl hne
  | cons a rest ih =>
    cases rest with
    | nil => exact splitChar_of_not_mem sep a (h a (by simp))
    | cons b rest' =>
      rw [joinSep_cons_cons, splitChar_append sep a _ (h a (by simp))]
      rw [ih (by simp) (fun s hs => h s (List.mem_cons_of_mem a hs))]

theorem not_mem_joinSep (sep ch : Char) (xs : List Str) (hch : ch ≠ sep)
    (h : ∀ s ∈ xs, ch ∉ s) : ch ∉ joinSep sep xs := by
  induction xs with
  | nil => simp [joinSep]
  | cons a rest ih =>
    cases rest with
    | nil => exact h a (by simp)
    | cons b rest' =>
      rw [joinSep_cons_cons]
      intro hmem
      rcases List.mem_append.mp hmem with hmem | hmem
      · exact h a (by simp) hmem
      · rcases List.mem_cons.mp hmem with hmem | hmem
        · exact hch hmem
        · exact ih (fun s hs => h s (List.mem_cons_of_mem a hs)) hmem

theorem startsWith_hash_eq_false (s : Str) (h : '#' ∉ s) :
    startsWith s (strOf "#") = false := by
  cases s with
  | nil => rfl
  | cons c cs =>
    rw [List.mem_cons, not_or] at h
    show (decide (c = '#') && startsWith cs []) = false
    simp only [Bool.and_eq_false_iff, decide_eq_false_iff_not]
    exact Or.inl fun hc => h.1 hc.symm

theorem goContains_pipehash_eq_false (s : Str) (h : '#' ∉ s) :
    goContains s (strOf "|#") = false := by
  induction s with
  | nil => rfl
  | cons c cs ih =>
    rw [List.mem_cons, not_or] at h
    rw [goContains]
    have h1 : startsWith (c :: cs) (strOf "|#") = false := by
      show (decide (c = '|') && startsWith cs (strOf "#")) = false
      rw [startsWith_hash_eq_false cs h.2]
      simp
    rw [h1, ih h.2]
    rfl

theorem escapeMetricName_of_ne_nil (s : Str) (h : s ≠ []) :
    ∃ t, escapeMetricName s = some t := by
  cases s with
  | nil => exact absurd rfl h
  | cons c cs => exact ⟨_, rfl⟩

end Statsd

namespace Statsd

/-- C1: the claim says `lineToEvents` is total and never panics, malformed
input degrading to zero events plus a counter increment.  The code
violates this: on the line `a:1|c|#:bar` the DogStatsD tag `:bar` has an
empty key and a non-empty value, so it passes the tag validity test and
`escapeMetricName` is called on the empty key, where `metricName[0]`
panics with an index-out-of-range error.  The model evaluates to `none`
(= panic) on that line. -/
theorem C1_lineToEvents_panics_on_empty_tag_key :
    lineToEvents (strOf "a:1|c|#:bar") = none := by decide

/-- C4: an `@` component on an `h`-typed sample is rejected as an illegal
sampling factor — counted, but causing neither value division nor event
multiplication, so the sample still yields exactly one event with the
unscaled value; moreover the factor step divides the value only for
`c`-typed samples and touches the repeat count only for `ms`-typed
samples. -/
theorem C4_h_factor_rejected (metric : Str) (stats : ParseStats)
    (sample vs fs : Str) (v : GoFloat)
    (hsplit : splitChar sample '|' = [vs, strOf "h", '@' :: fs])
    (hv : parseGoFloat vs = (v, false)) :
    processSample metric stats sample =
      some ([Event.timer metric v []],
        stats.incSamplesReceived.incIllegalSampleFactor)
    ∧ (∀ (st : Str) (ctx : SampleCtx) (ps : ParseStats) (comp : Str), st ≠ strOf "c" →
        (processComponent st ctx ps ('@' :: comp)).map (fun r => r.1.value) =
          some ctx.value)
    ∧ (∀ (st : Str) (ctx : SampleCtx) (ps : ParseStats) (comp : Str), st ≠ strOf "ms" →
        (processComponent st ctx ps ('@' :: comp)).map (fun r => r.1.multiplyEvents) =
          some ctx.multiplyEvents) := by
  refine ⟨?_, ?_, ?_⟩
  · have h1 : ¬(strOf "h" = strOf "c") := by decide
    have h2 : ¬(strOf "h" = strOf "ms") := by decide
    have h3 : ¬(strOf "h" = strOf "g") := by decide
    simp [processSample, hsplit, hv, processComponents, processComponent, buildEvent,
      h1, h2, h3]
  · intro st ctx ps comp hc
    by_cases hms : st = strOf "ms"
    · subst hms
      have h1 : ¬(strOf "ms" = strOf "c") := by decide
      simp [processComponent, h1, hc]
    · simp [processComponent, hc, hms]
  · intro st ctx ps comp hms
    by_cases hc : st = strOf "c"
    · subst hc
      have h2 : ¬(strOf "c" = strOf "ms") := by decide
      simp [processComponent, h2]
    · simp [processComponent, hc, hms]

/-- Witness for C4 at the concrete sample `2|h|@0.5`. -/
theorem C4_witness :
    processSample (strOf "a") ParseStats.zero (strOf "2|h|@0.5") =
      some ([Event.timer (strOf "a") (GoFloat.finite 2) []],
        ParseStats.zero.incSamplesReceived.incIllegalSampleFactor) := by
  have h := C4_h_factor_rejected (strOf "a") ParseStats.zero (strOf "2|h|@0.5")
    (strOf "2") (strOf "0.5") (GoFloat.finite 2) (by decide) (by decide)
  exact h.1

/-- C8: a `c`-typed sample with a sampling factor records the parsed value
divided by the factor, a factor of 0 first normalizing to 1. -/
theorem C8_counter_value_divided (metric : Str) (stats : ParseStats)
    (sample vs fs : Str) (v f : ℚ)
    (hsplit : splitChar sample '|' = [vs, strOf "c", '@' :: fs])
    (hv : parseGoFloat vs = (GoFloat.finite v, false))
    (hf : parseGoFloat fs = (GoFloat.finite f, false)) :
    processSample metric stats sample =
      some ([Event.counter metric (GoFloat.finite (v / (if f = 0 then 1 else f))) []],
        stats.incSamplesReceived) := by
  have h1 : ¬(strOf "c" = strOf "ms") := by decide
  by_cases hf0 : f = 0
  · subst hf0
    simp [processSample, hsplit, hv, hf, processComponents, processComponent, buildEvent,
      h1, GoFloat.div]
  · simp [processSample, hsplit, hv, hf, processComponents, processComponent, buildEvent,
      h1, GoFloat.div, hf0]

/-- Witness for C8: `5|c|@0.1` records the increment `5 / 0.1 = 50`. -/
theorem C8_witness :
    processSample (strOf "a") ParseStats.zero (strOf "5|c|@0.1") =
      some ([Event.counter (strOf "a") (GoFloat.finite 50) []],
        ParseStats.zero.incSamplesReceived) := by
  have h := C8_counter_value_divided (strOf "a") ParseStats.zero (strOf "5|c|@0.1")
    (strOf "5") (strOf "0.1") 5 (1 / 10) (by decide) (by decide) (by decide)
  rw [h]
  decide

/-- C3 (amended): an `ms`-typed sample with factor `f` (0 normalized
to 1) expands to `int(1 / f)` events — Go float-to-int conversion, i.e.
truncation toward zero, not rounding — each with the unscaled value. -/
theorem C3_timer_expansion_truncates (metric : Str) (stats : ParseStats)
    (sample vs fs : Str) (v : GoFloat) (f : ℚ)
    (hsplit : splitChar sample '|' = [vs, strOf "ms", '@' :: fs])
    (hv : parseGoFloat vs = (v, false))
    (hf : parseGoFloat fs = (GoFloat.finite f, false)) :
    processSample metric stats sample =
      some (List.replicate
          (((GoFloat.finite 1).div (GoFloat.finite (if f = 0 then 1 else f))).toInt64).toNat
          (Event.timer metric v []),
        stats.incSamplesReceived) := by
  have h1 : ¬(strOf "ms" = strOf "c") := by decide
  have h2 : ¬(strOf "ms" = strOf "g") := by decide
  by_cases hf0 : f = 0
  · subst hf0
    simp [processSample, hsplit, hv, hf, processComponents, processComponent, buildEvent,
      h1, h2]
  · simp [processSample, hsplit, hv, hf, processComponents, processComponent, buildEvent,
      h1, h2, hf0]

/-- Counterexample to C3 as stated: the claim promises `round(1/f)` events
for every factor, but at `f = 0.6` the code produces `int(1/0.6) = 1`
event while `round(1/0.6) = 2`. -/
theorem C3_counterexample :
    (lineToEvents (strOf "a:100|ms|@0.6")).map (fun r => r.1.length) = some 1 ∧
      round ((1 : ℚ) / ((6 : ℚ) / 10)) = 2 := by
  refine ⟨by decide, ?_⟩
  norm_num [round_eq, Int.floor_eq_iff]

/-- Witness for the amended C3: `100|ms|@0.25` expands to 4 events of
value 100. -/
theorem C3_witness :
    processSample (strOf "a") ParseStats.zero (strOf "100|ms|@0.25") =
      some (List.replicate 4 (Event.timer (strOf "a") (GoFloat.finite 100) []),
        ParseStats.zero.incSamplesReceived) := by
  have h := C3_timer_expansion_truncates (strOf "a") ParseStats.zero (strOf "100|ms|@0.25")
    (strOf "100") (strOf "0.25") (GoFloat.finite 100) (1 / 4) (by decide) (by decide)
    (by decide)
  rw [h]
  decide

/-- Division by the float 1 is the identity on every Go float value. -/
theorem GoFloat.div_one (v : GoFloat) : v.div (GoFloat.finite 1) = v := by
  cases v <;> norm_num [GoFloat.div]

/-- Counterexample to C10 as stated: a range-error factor also "fails to
parse", but `ParseFloat` returns the signed infinity alongside the error,
not 0, so the zero-normalization does not touch it and the factor does
not degrade to 1.  On `a:5|ms|@1e999` the invalid-factor counter is
bumped, yet the repeat count becomes `int(1 / +Inf) = 0` and the sample
produces no events at all; on `a:5|c|@1e999` the single event records
`5 / +Inf = 0`, not the unscaled 5. -/
theorem C10_counterexample :
    (lineToEvents (strOf "a:5|ms|@1e999")).map
        (fun r => (r.1, r.2.invalidSampleFactor)) = some ([], 1)
    ∧ (lineToEvents (strOf "a:5|c|@1e999")).map
        (fun r => (r.1, r.2.invalidSampleFactor)) =
      some ([Event.counter (strOf "a") (GoFloat.finite 0) []], 1) := by
  refine ⟨by decide, by decide⟩

/-- C10 (amended): on a `c` or `ms` sample whose `@` component's numeric
text fails to parse with a syntax error — `ParseFloat` returns 0 together
with the error — the sample is not skipped: the invalid-sampling-factor
counter increments, the factor degrades to 1 (the returned 0, normalized
by the zero check), and the sample still produces its single event with
the unscaled value.  A range-error failure instead keeps the returned
infinity: see the counterexample. -/
theorem C10_syntax_error_factor_degrades (metric : Str) (stats : ParseStats)
    (sample vs fs ts : Str) (v : GoFloat)
    (hts : ts = strOf "c" ∨ ts = strOf "ms")
    (hsplit : splitChar sample '|' = [vs, ts, '@' :: fs])
    (hv : parseGoFloat vs = (v, false))
    (hf : parseGoFloat fs = (GoFloat.finite 0, true)) :
    processSample metric stats sample =
      some ([if ts = strOf "c" then Event.counter metric v []
             else Event.timer metric v []],
        stats.incSamplesReceived.incInvalidSampleFactor) := by
  have ht1 : ((GoFloat.finite 1).div (GoFloat.finite 1)).toInt64 = 1 := by decide
  rcases hts with h | h <;> subst h
  · have h1 : ¬(strOf "c" = strOf "ms") := by decide
    simp [processSample, hsplit, hv, hf, processComponents, processComponent, buildEvent,
      h1, GoFloat.div_one]
  · have h1 : ¬(strOf "ms" = strOf "c") := by decide
    have h2 : ¬(strOf "ms" = strOf "g") := by decide
    simp [processSample, hsplit, hv, hf, processComponents, processComponent, buildEvent,
      h1, h2, ht1]

/-- Witness for the amended C10 at `5|c|@wat` (a syntax error). -/
theorem C10_witness :
    processSample (strOf "a") ParseStats.zero (strOf "5|c|@wat") =
      some ([Event.counter (strOf "a") (GoFloat.finite 5) []],
        ParseStats.zero.incSamplesReceived.incInvalidSampleFactor) := by
  have h := C10_syntax_error_factor_degrades (strOf "a") ParseStats.zero (strOf "5|c|@wat")
    (strOf "5") (strOf "wat") (strOf "c") (GoFloat.finite 5) (Or.inl rfl) (by decide)
    (by decide) (by decide)
  rw [h]
  decide

end Statsd

namespace Statsd

/-- A well-formed, factor-free sample (value and type only) yields exactly
one event, carrying the metric name it was dispatched with. -/
theorem processSample_two_components (metric : Str) (stats : ParseStats)
    (sample vs ts : Str) (v : GoFloat)
    (hsplit : splitChar sample '|' = [vs, ts])
    (hv : parseGoFloat vs = (v, false))
    (hts : ts = strOf "c" ∨ ts = strOf "g" ∨ ts = strOf "ms" ∨ ts = strOf "h") :
    ∃ ev : Event,
      processSample metric stats sample = some ([ev], stats.incSamplesReceived)
      ∧ ev.metricName = metric := by
  rcases hts with h | h | h | h <;> subst h
  · refine ⟨Event.counter metric v [], ?_, rfl⟩
    simp [processSample, hsplit, hv, processComponents, buildEvent]
  · refine ⟨Event.gauge metric v (hasSignMarker vs) [], ?_, rfl⟩
    have h1 : ¬(strOf "g" = strOf "c") := by decide
    simp [processSample, hsplit, hv, processComponents, buildEvent, h1]
  · refine ⟨Event.timer metric v [], ?_, rfl⟩
    have h1 : ¬(strOf "ms" = strOf "c") := by decide
    have h2 : ¬(strOf "ms" = strOf "g") := by decide
    simp [processSample, hsplit, hv, processComponents, buildEvent, h1, h2]
  · refine ⟨Event.timer metric v [], ?_, rfl⟩
    have h1 : ¬(strOf "h" = strOf "c") := by decide
    have h2 : ¬(strOf "h" = strOf "g") := by decide
    have h3 : ¬(strOf "h" = strOf "ms") := by decide
    simp [processSample, hsplit, hv, processComponents, buildEvent, h1, h2, h3]

/-- The `samples:` loop over well-formed factor-free samples appends one
event per sample, each named after the shared metric. -/
theorem processSamples_well_formed (metric : Str) (samples : List Str)
    (hwf : ∀ s ∈ samples, ∃ vs ts v, splitChar s '|' = [vs, ts] ∧
      parseGoFloat vs = (v, false) ∧
      (ts = strOf "c" ∨ ts = strOf "g" ∨ ts = strOf "ms" ∨ ts = strOf "h")) :
    ∀ (evs : List Event) (stats : ParseStats), ∃ (evs2 : List Event) (stats2 : ParseStats),
      processSamples metric samples (evs, stats) = some (evs ++ evs2, stats2)
      ∧ evs2.length = samples.length
      ∧ ∀ e ∈ evs2, e.metricName = metric := by
  induction samples with
  | nil =>
    intro evs stats
    exact ⟨[], stats, by simp [processSamples], rfl, by simp⟩
  | cons s ss ih =>
    intro evs stats
    obtain ⟨vs, ts, v, hsplit, hv, hts⟩ := hwf s (by simp)
    obtain ⟨ev, hps, hname⟩ :=
      processSample_two_components metric stats s vs ts v hsplit hv hts
    obtain ⟨evs2, stats2, hrec, hlen, hnames⟩ :=
      ih (fun t ht => hwf t (List.mem_cons_of_mem s ht)) (evs ++ [ev])
        stats.incSamplesReceived
    refine ⟨ev :: evs2, stats2, ?_, by simp [hlen], ?_⟩
    · rw [processSamples, hps]
      show processSamples metric ss (evs ++ [ev], stats.incSamplesReceived) =
        some (evs ++ ev :: evs2, stats2)
      rw [hrec]
      simp
    · intro e he
      rcases List.mem_cons.mp he with he | he
      · exact he ▸ hname
      · exact hnames e he

/-- C7: a line of `N` `:`-delimited well-formed factor-free samples (none
containing the tag marker) parses to exactly `N` events, each carrying the
shared metric name from before the first `:`. -/
theorem C7_multi_sample_count (metric : Str) (samples : List Str)
    (hm : metric ≠ []) (hmc : ':' ∉ metric) (hne : samples ≠ [])
    (hwf : ∀ s ∈ samples, ':' ∉ s ∧ '#' ∉ s ∧
      ∃ vs ts v, splitChar s '|' = [vs, ts] ∧ parseGoFloat vs = (v, false) ∧
        (ts = strOf "c" ∨ ts = strOf "g" ∨ ts = strOf "ms" ∨ ts = strOf "h")) :
    ∃ (events : List Event) (stats : ParseStats),
      lineToEvents (metric ++ ':' :: joinSep ':' samples) = some (events, stats)
      ∧ events.length = samples.length
      ∧ ∀ e ∈ events, e.metricName = metric := by
  have hline : metric ++ ':' :: joinSep ':' samples ≠ [] := by
    cases metric with
    | nil => exact absurd rfl hm
    | cons c cs => simp
  have hhash : '#' ∉ joinSep ':' samples :=
    not_mem_joinSep ':' '#' samples (by decide) (fun s hs => (hwf s hs).2.1)
  have hcont : goContains (joinSep ':' samples) (strOf "|#") = false :=
    goContains_pipehash_eq_false _ hhash
  have hsplitline : splitN2 (metric ++ ':' :: joinSep ':' samples) ':' =
      [metric, joinSep ':' samples] := splitN2_append ':' metric _ hmc
  have hsamples : splitChar (joinSep ':' samples) ':' = samples :=
    splitChar_joinSep ':' samples hne (fun s hs => (hwf s hs).1)
  obtain ⟨evs2, stats2, hps, hlen, hnames⟩ :=
    processSamples_well_formed metric samples (fun s hs => (hwf s hs).2.2) []
      ParseStats.zero
  refine ⟨evs2, stats2, ?_, hlen, hnames⟩
  rw [lineToEvents, if_neg hline, hsplitline]
  simp only [utf8ValidString, hcont, Bool.false_eq_true, if_false, hsamples]
  rw [if_neg (by simp [hm])]
  simpa using hps

/-- Witness for C7: `a:1|c:2|ms` parses to 2 events named `a`. -/
theorem C7_witness :
    ∃ (events : List Event) (stats : ParseStats),
      lineToEvents (strOf "a" ++ ':' :: joinSep ':' [strOf "1|c", strOf "2|ms"]) =
        some (events, stats)
      ∧ events.length = 2
      ∧ ∀ e ∈ events, e.metricName = strOf "a" := by
  have h := C7_multi_sample_count (strOf "a") [strOf "1|c", strOf "2|ms"]
    (by decide) (by decide) (by decide) ?_
  · exact h
  · intro s hs
    rcases List.mem_cons.mp hs with h | h
    · subst h
      exact ⟨by decide, by decide, strOf "1", strOf "c", GoFloat.finite 1, by decide,
        by decide, Or.inl rfl⟩
    · rcases List.mem_cons.mp h with h | h
      · subst h
        exact ⟨by decide, by decide, strOf "2", strOf "ms", GoFloat.finite 2, by decide,
          by decide, Or.inr (Or.inr (Or.inl rfl))⟩
      · exact absurd h (List.not_mem_nil s)

end Statsd

namespace Statsd

/-- With unique keys, membership determines map lookup. -/
theorem lookupA_eq_some_of_mem (l : Labels) (k v : Str)
    (hnd : (l.map Prod.fst).Nodup) (hm : (k, v) ∈ l) :
    lookupA l k = some v := by
  induction l with
  | nil => exact absurd hm (List.not_mem_nil _)
  | cons p r ih =>
    obtain ⟨k', v'⟩ := p
    rw [List.map_cons, List.nodup_cons] at hnd
    rcases List.mem_cons.mp hm with h | h
    · injection h with h1 h2
      subst h1
      subst h2
      rw [lookupA, if_pos rfl]
    · have hk : k' ≠ k := by
        intro he
        subst he
        exact hnd.1 (List.mem_map.mpr ⟨(k', v), h, rfl⟩)
      rw [lookupA, if_neg hk]
      exact ih hnd.2 h

/-- Lookups agree across a permutation of a unique-keyed map, on keys the
map holds. -/
theorem lookupA_eq_of_perm (l₁ l₂ : Labels) (hnd : (l₁.map Prod.fst).Nodup)
    (hp : l₁.Perm l₂) (k : Str) (hk : k ∈ l₁.map Prod.fst) :
    lookupA l₁ k = lookupA l₂ k := by
  obtain ⟨p, hpmem, hpk⟩ := List.mem_map.mp hk
  obtain ⟨k', v⟩ := p
  cases hpk
  have hnd2 : (l₂.map Prod.fst).Nodup := ((hp.map Prod.fst).nodup_iff).mp hnd
  rw [lookupA_eq_some_of_mem l₁ k' v hnd hpmem,
    lookupA_eq_some_of_mem l₂ k' v hnd2 (hp.subset hpmem)]

/-- A sort is a canonical form: permuted inputs sort identically. -/
theorem sortStrings_eq_of_perm (l₁ l₂ : List Str) (hp : l₁.Perm l₂) :
    sortStrings l₁ = sortStrings l₂ :=
  List.eq_of_perm_of_sorted
    ((List.perm_insertionSort _ l₁).trans (hp.trans (List.perm_insertionSort _ l₂).symm))
    (List.sorted_insertionSort _ l₁) (List.sorted_insertionSort _ l₂)

/-- The label signature is invariant under permutation of a unique-keyed
label set. -/
theorem labelsToSignature_eq_of_perm (l₁ l₂ : Labels)
    (hnd : (l₁.map Prod.fst).Nodup) (hp : l₁.Perm l₂) :
    labelsToSignature l₁ = labelsToSignature l₂ := by
  rcases eq_or_ne l₁ [] with h1 | h1
  · subst h1
    rw [hp.symm.eq_nil]
  · have h2 : l₂ ≠ [] := fun he => h1 (by rw [he] at hp; exact hp.eq_nil)
    rw [labelsToSignature, labelsToSignature, if_neg h1, if_neg h2,
      sortStrings_eq_of_perm _ _ (hp.map Prod.fst)]
    apply List.foldl_ext
    intro acc n hn
    have hmem : n ∈ l₂.map Prod.fst := (List.perm_insertionSort _ _).subset hn
    have hmem1 : n ∈ l₁.map Prod.fst := ((hp.map Prod.fst).mem_iff).mpr hmem
    rw [lookupA_eq_of_perm l₁ l₂ hnd hp n hmem1]

/-- C6: `hashNameAndLabels` is order-independent over the label entries of
a unique-keyed label set — two permuted label sets hash identically — and
it is sensitive to the name and to each label key and value (witnessed on
concrete instances; at 64 bits distinctness can only hold with
overwhelming probability, not universally). -/
theorem C6_hash_order_independent (name : Str) (l₁ l₂ : Labels)
    (hnd : (l₁.map Prod.fst).Nodup) (hp : l₁.Perm l₂) :
    hashNameAndLabels name l₁ = hashNameAndLabels name l₂
    ∧ hashNameAndLabels (strOf "a") [] ≠ hashNameAndLabels (strOf "b") []
    ∧ hashNameAndLabels (strOf "a") [(strOf "k", strOf "v")] ≠
        hashNameAndLabels (strOf "a") [(strOf "k", strOf "w")]
    ∧ hashNameAndLabels (strOf "a") [(strOf "k", strOf "v")] ≠
        hashNameAndLabels (strOf "a") [(strOf "j", strOf "v")] := by
  refine ⟨?_, by decide, by decide, by decide⟩
  unfold hashNameAndLabels
  rw [labelsToSignature_eq_of_perm l₁ l₂ hnd hp]

/-- Witness for C6 on a two-label set given in both insertion orders. -/
theorem C6_witness :
    hashNameAndLabels (strOf "a") [(strOf "k", strOf "v"), (strOf "j", strOf "w")] =
      hashNameAndLabels (strOf "a") [(strOf "j", strOf "w"), (strOf "k", strOf "v")] :=
  (C6_hash_order_independent (strOf "a")
    [(strOf "k", strOf "v"), (strOf "j", strOf "w")]
    [(strOf "j", strOf "w"), (strOf "k", strOf "v")] (by decide) (by decide)).1

end Statsd

namespace Statsd

theorem obsSum_cons {α : Type} (f : α → List GoFloat) (p : ℕ × α) (es : List (ℕ × α)) :
    obsSum f (p :: es) = (f p.2 : Multiset GoFloat) + obsSum f es := by
  simp [obsSum]

theorem lookupE_insertE_self {α : Type} (es : List (ℕ × α)) (h : ℕ) (a : α) :
    lookupE (insertE es h a) h = some a := by
  induction es with
  | nil => simp [insertE, lookupE]
  | cons p r ih =>
    obtain ⟨k, b⟩ := p
    by_cases hk : k = h
    · subst hk
      simp [insertE, lookupE]
    · simp [insertE, lookupE, hk, ih]

theorem obsSum_insertE_of_lookupE_none {α : Type} (f : α → List GoFloat)
    (es : List (ℕ × α)) (h : ℕ) (a : α) (hl : lookupE es h = none) :
    obsSum f (insertE es h a) = obsSum f es + (f a : Multiset GoFloat) := by
  induction es with
  | nil => simp [insertE, obsSum]
  | cons p r ih =>
    obtain ⟨k, b⟩ := p
    rw [lookupE] at hl
    by_cases hk : k = h
    · rw [if_pos hk] at hl
      exact absurd hl (by simp)
    · rw [if_neg hk] at hl
      rw [insertE, if_neg hk, obsSum_cons, obsSum_cons, ih hl, add_assoc]

theorem obsSum_insertE_of_lookupE_some {α : Type} (f : α → List GoFloat)
    (es : List (ℕ × α)) (h : ℕ) (a b : α) (hl : lookupE es h = some a) :
    obsSum f (insertE es h b) + (f a : Multiset GoFloat) =
      obsSum f es + (f b : Multiset GoFloat) := by
  induction es with
  | nil => simp [lookupE] at hl
  | cons p r ih =>
    obtain ⟨k, c⟩ := p
    rw [lookupE] at hl
    by_cases hk : k = h
    · rw [if_pos hk] at hl
      injection hl with hl
      subst hl
      rw [insertE, if_pos hk, obsSum_cons, obsSum_cons]
      abel
    · rw [if_neg hk] at hl
      rw [insertE, if_neg hk, obsSum_cons, obsSum_cons, add_assoc, add_assoc, ih hl]

/-- Facts about `HistogramContainer.get` needed for observation
accounting: a successful get leaves the handle reachable under the
fingerprint and does not change the observation multiset (a fresh
histogram starts with no observations); a failed get does not change the
observation multiset either (the source's early caching inserts an
observation-free histogram). -/
theorem histogramGet_spec (reg : RegOracle) (d : MapperDefaults)
    (c : List (ℕ × Histogram)) (n : Str) (ls : Labels) (hp : Str)
    (m : Option MetricMapping) :
    (∀ hg hs, HistogramContainer.get reg d c n ls hp m = (Except.ok hg, hs) →
      lookupE hs (hashNameAndLabels n ls) = some hg ∧
        obsSum Histogram.observations hs = obsSum Histogram.observations c)
    ∧ (∀ e hs, HistogramContainer.get reg d c n ls hp m = (Except.error e, hs) →
      obsSum Histogram.observations hs = obsSum Histogram.observations c) := by
  refine ⟨?_, ?_⟩
  · intro hg hs he
    simp only [HistogramContainer.get] at he
    cases hcl : lookupE c (hashNameAndLabels n ls) with
    | some hg0 =>
      simp only [hcl, Prod.mk.injEq, Except.ok.injEq] at he
      obtain ⟨he1, he2⟩ := he
      subst he1
      subst he2
      exact ⟨hcl, rfl⟩
    | none =>
      cases hreg : reg n ls with
      | true =>
        simp only [hcl, hreg, if_true, Prod.mk.injEq, Except.ok.injEq] at he
        obtain ⟨he1, he2⟩ := he
        subst he1
        subst he2
        refine ⟨lookupE_insertE_self _ _ _, ?_⟩
        rw [obsSum_insertE_of_lookupE_none _ _ _ _ hcl]
        simp
      | false =>
        simp [hcl, hreg] at he
  · intro e hs he
    simp only [HistogramContainer.get] at he
    cases hcl : lookupE c (hashNameAndLabels n ls) with
    | some hg0 => simp [hcl] at he
    | none =>
      cases hreg : reg n ls with
      | true => simp [hcl, hreg] at he
      | false =>
        simp only [hcl, hreg, Bool.false_eq_true, if_false, Prod.mk.injEq] at he
        obtain ⟨he1, he2⟩ := he
        subst he2
        rw [obsSum_insertE_of_lookupE_none _ _ _ _ hcl]
        simp

/-- The same facts for `SummaryContainer.get` (which registers before
caching, so a failed get returns the container unchanged). -/
theorem summaryGet_spec (reg : RegOracle) (d : MapperDefaults)
    (c : List (ℕ × Summary)) (n : Str) (ls : Labels) (hp : Str)
    (m : Option MetricMapping) :
    (∀ sg ss, SummaryContainer.get reg d c n ls hp m = (Except.ok sg, ss) →
      lookupE ss (hashNameAndLabels n ls) = some sg ∧
        obsSum Summary.observations ss = obsSum Summary.observations c)
    ∧ (∀ e ss, SummaryContainer.get reg d c n ls hp m = (Except.error e, ss) →
      ss = c) := by
  refine ⟨?_, ?_⟩
  · intro sg ss he
    simp only [SummaryContainer.get] at he
    cases hcl : lookupE c (hashNameAndLabels n ls) with
    | some sg0 =>
      simp only [hcl, Prod.mk.injEq, Except.ok.injEq] at he
      obtain ⟨he1, he2⟩ := he
      subst he1
      subst he2
      exact ⟨hcl, rfl⟩
    | none =>
      cases hreg : reg n ls with
      | true =>
        simp only [hcl, hreg, if_true, Prod.mk.injEq, Except.ok.injEq] at he
        obtain ⟨he1, he2⟩ := he
        subst he1
        subst he2
        refine ⟨lookupE_insertE_self _ _ _, ?_⟩
        rw [obsSum_insertE_of_lookupE_none _ _ _ _ hcl]
        simp
      | false => simp [hcl, hreg] at he
  · intro e ss he
    simp only [SummaryContainer.get] at he
    cases hcl : lookupE c (hashNameAndLabels n ls) with
    | some sg0 => simp [hcl] at he
    | none =>
      cases hreg : reg n ls with
      | true => simp [hcl, hreg] at he
      | false =>
        simp only [hcl, hreg, Bool.false_eq_true, if_false, Prod.mk.injEq] at he
        exact he.2.symm

end Statsd

namespace Statsd

/-- The histogram arm observes exactly `v / 1000` (or counts a conflict
and observes nothing); it never touches the summaries. -/
theorem handleTimerHistogram_spec (mapper : Mapper) (reg : RegOracle) (b : Exporter)
    (stats : DispatchStats) (metricName : Str) (pls : Labels) (help : Str)
    (mapping : MetricMapping) (v : GoFloat) :
    ((handleTimerHistogram mapper reg b stats metricName pls help mapping v).2 =
        stats.incTimerEvents ∧
      obsSum Histogram.observations
          (handleTimerHistogram mapper reg b stats metricName pls help mapping v).1.histograms =
        obsSum Histogram.observations b.histograms + {v.div (GoFloat.finite 1000)} ∧
      (handleTimerHistogram mapper reg b stats metricName pls help mapping v).1.summaries =
        b.summaries)
    ∨ ((handleTimerHistogram mapper reg b stats metricName pls help mapping v).2 =
        stats.incConflictingTimer ∧
      obsSum Histogram.observations
          (handleTimerHistogram mapper reg b stats metricName pls help mapping v).1.histograms =
        obsSum Histogram.observations b.histograms ∧
      (handleTimerHistogram mapper reg b stats metricName pls help mapping v).1.summaries =
        b.summaries) := by
  rcases hget : HistogramContainer.get reg mapper.defaults b.histograms metricName pls
    help (some mapping) with ⟨res, hs⟩
  cases res with
  | ok hg =>
    obtain ⟨hlk, hob⟩ :=
      (histogramGet_spec reg mapper.defaults b.histograms metricName pls help
        (some mapping)).1 hg hs hget
    left
    refine ⟨by simp [handleTimerHistogram, hget], ?_, by simp [handleTimerHistogram, hget]⟩
    simp only [handleTimerHistogram, hget]
    have hins := obsSum_insertE_of_lookupE_some Histogram.observations hs
      (hashNameAndLabels metricName pls) hg (hg.observe (v.div (GoFloat.finite 1000))) hlk
    have hco : (((hg.observe (v.div (GoFloat.finite 1000))).observations :
          List GoFloat) : Multiset GoFloat) =
        (hg.observations : Multiset GoFloat) + {v.div (GoFloat.finite 1000)} := by
      rw [Histogram.observe, ← Multiset.coe_singleton, ← Multiset.coe_add]
    rw [hco] at hins
    have hkey : obsSum Histogram.observations
        (insertE hs (hashNameAndLabels metricName pls)
          (hg.observe (v.div (GoFloat.finite 1000)))) +
          (hg.observations : Multiset GoFloat) =
        (obsSum Histogram.observations b.histograms + {v.div (GoFloat.finite 1000)}) +
          (hg.observations : Multiset GoFloat) := by
      rw [hins, hob]
      abel
    exact add_right_cancel hkey
  | error e =>
    obtain hob :=
      (histogramGet_spec reg mapper.defaults b.histograms metricName pls help
        (some mapping)).2 e hs hget
    right
    refine ⟨by simp [handleTimerHistogram, hget], ?_, by simp [handleTimerHistogram, hget]⟩
    simp only [handleTimerHistogram, hget]
    exact hob

/-- The summary arm observes exactly the raw value `v` (or counts a
conflict and observes nothing); it never touches the histograms. -/
theorem handleTimerSummary_spec (mapper : Mapper) (reg : RegOracle) (b : Exporter)
    (stats : DispatchStats) (metricName : Str) (pls : Labels) (help : Str)
    (mapping : MetricMapping) (v : GoFloat) :
    ((handleTimerSummary mapper reg b stats metricName pls help mapping v).2 =
        stats.incTimerEvents ∧
      obsSum Summary.observations
          (handleTimerSummary mapper reg b stats metricName pls help mapping v).1.summaries =
        obsSum Summary.observations b.summaries + {v} ∧
      (handleTimerSummary mapper reg b stats metricName pls help mapping v).1.histograms =
        b.histograms)
    ∨ ((handleTimerSummary mapper reg b stats metricName pls help mapping v).2 =
        stats.incConflictingTimer ∧
      obsSum Summary.observations
          (handleTimerSummary mapper reg b stats metricName pls help mapping v).1.summaries =
        obsSum Summary.observations b.summaries ∧
      (handleTimerSummary mapper reg b stats metricName pls help mapping v).1.histograms =
        b.histograms) := by
  rcases hget : SummaryContainer.get reg mapper.defaults b.summaries metricName pls
    help (some mapping) with ⟨res, ss⟩
  cases res with
  | ok sg =>
    obtain ⟨hlk, hob⟩ :=
      (summaryGet_spec reg mapper.defaults b.summaries metricName pls help
        (some mapping)).1 sg ss hget
    left
    refine ⟨by simp [handleTimerSummary, hget], ?_, by simp [handleTimerSummary, hget]⟩
    simp only [handleTimerSummary, hget]
    have hins := obsSum_insertE_of_lookupE_some Summary.observations ss
      (hashNameAndLabels metricName pls) sg (sg.observe v) hlk
    have hco : (((sg.observe v).observations : List GoFloat) : Multiset GoFloat) =
        (sg.observations : Multiset GoFloat) + {v} := by
      rw [Summary.observe, ← Multiset.coe_singleton, ← Multiset.coe_add]
    rw [hco] at hins
    have hkey : obsSum Summary.observations
        (insertE ss (hashNameAndLabels metricName pls) (sg.observe v)) +
          (sg.observations : Multiset GoFloat) =
        (obsSum Summary.observations b.summaries + {v}) +
          (sg.observations : Multiset GoFloat) := by
      rw [hins, hob]
      abel
    exact add_right_cancel hkey
  | error e =>
    obtain hss :=
      (summaryGet_spec reg mapper.defaults b.summaries metricName pls help
        (some mapping)).2 e ss hget
    right
    subst hss
    exact ⟨by simp [handleTimerSummary, hget], by simp [handleTimerSummary, hget],
      by simp [handleTimerSummary, hget]⟩

/-- C5: routing a timer event resolves the effective representation to
Histogram or to Summary (the zero/default timer type falls back to the
mapper default, and an unresolved default is handled by the summary arm);
a histogram observes the millisecond value divided by 1000 while a
summary observes the raw value unchanged; on a registration conflict
nothing is observed and the conflict is counted. -/
theorem C5_timer_histogram_vs_summary (mapper : Mapper) (reg : RegOracle)
    (b : Exporter) (stats : DispatchStats) (metricName : Str) (pls : Labels)
    (help : Str) (mapping : MetricMapping) (v : GoFloat) :
    let t := if mapping.timerType = TimerType.default_ then mapper.defaults.timerType
      else mapping.timerType
    let r := handleTimerEvent mapper reg b stats metricName pls help mapping v
    (t = TimerType.histogram ∧ r.2 = stats.incTimerEvents ∧
      obsSum Histogram.observations r.1.histograms =
        obsSum Histogram.observations b.histograms + {v.div (GoFloat.finite 1000)} ∧
      r.1.summaries = b.summaries)
    ∨ (t ≠ TimerType.histogram ∧ r.2 = stats.incTimerEvents ∧
      obsSum Summary.observations r.1.summaries =
        obsSum Summary.observations b.summaries + {v} ∧
      r.1.histograms = b.histograms)
    ∨ (r.2 = stats.incConflictingTimer ∧
      obsSum Histogram.observations r.1.histograms =
        obsSum Histogram.observations b.histograms ∧
      obsSum Summary.observations r.1.summaries =
        obsSum Summary.observations b.summaries) := by
  intro t r
  have hr : r = handleTimerEvent mapper reg b stats metricName pls help mapping v := rfl
  by_cases ht : (if mapping.timerType = TimerType.default_ then mapper.defaults.timerType
      else mapping.timerType) = TimerType.histogram
  · have hrh : r = handleTimerHistogram mapper reg b stats metricName pls help mapping v := by
      rw [hr, handleTimerEvent]
      simp only [ht]
    rcases handleTimerHistogram_spec mapper reg b stats metricName pls help mapping v with
      ⟨h1, h2, h3⟩ | ⟨h1, h2, h3⟩
    · exact Or.inl ⟨ht, by rw [hrh]; exact h1, by rw [hrh]; exact h2, by rw [hrh]; exact h3⟩
    · refine Or.inr (Or.inr ⟨by rw [hrh]; exact h1, by rw [hrh]; exact h2, ?_⟩)
      rw [hrh, h3]
  · have hrs : r = handleTimerSummary mapper reg b stats metricName pls help mapping v := by
      rw [hr, handleTimerEvent]
      rcases htt : (if mapping.timerType = TimerType.default_ then mapper.defaults.timerType
          else mapping.timerType) with _ | _ | _
      · simp only
      · simp only
      · exact absurd htt ht
    rcases handleTimerSummary_spec mapper reg b stats metricName pls help mapping v with
      ⟨h1, h2, h3⟩ | ⟨h1, h2, h3⟩
    · exact Or.inr (Or.inl ⟨ht, by rw [hrs]; exact h1, by rw [hrs]; exact h2,
        by rw [hrs]; exact h3⟩)
    · refine Or.inr (Or.inr ⟨by rw [hrs]; exact h1, ?_, by rw [hrs]; exact h2⟩)
      rw [hrs, h3]

end Statsd

namespace Statsd

/-- C9: a negative-valued counter event that reaches the counter routing
(its mapping's action is not drop, and the resolved name is non-empty so
escaping cannot panic) is dropped before any container lookup: the
exporter — all four containers, hence every cached object and aggregate
value — is returned unchanged, and the illegal-negative-counter count
increments by exactly 1 (the unmapped count, bumped before routing when
no mapping is present, is the only other change). -/
theorem C9_negative_counter_dropped (mapper : Mapper) (reg : RegOracle)
    (b : Exporter) (stats : DispatchStats) (name : Str) (v : GoFloat) (ls : Labels)
    (hneg : v.ltZero = true)
    (hact : ((mapper.getMapping name MetricType.counter).1.getD
      MetricMapping.zero).action ≠ ActionType.drop)
    (hesc : (if (mapper.getMapping name MetricType.counter).2.2 then
        ((mapper.getMapping name MetricType.counter).1.getD MetricMapping.zero).name
      else name) ≠ []) :
    handleEvent mapper reg b stats (Event.counter name v ls) =
      some (b, (if (mapper.getMapping name MetricType.counter).2.2 then stats
        else stats.incEventsUnmapped).incIllegalNegativeCounter) := by
  by_cases hpres : (mapper.getMapping name MetricType.counter).2.2 = true
  · rw [if_pos hpres] at hesc
    rw [if_pos hpres]
    obtain ⟨t, ht⟩ := escapeMetricName_of_ne_nil _ hesc
    simp only [handleEvent, Event.metricName, Event.metricType, Event.labels, hact,
      ite_false, hpres, ite_true, ht, hneg]
  · rw [Bool.not_eq_true] at hpres
    rw [if_neg (by rw [hpres]; exact Bool.false_ne_true)] at hesc
    rw [if_neg (by rw [hpres]; exact Bool.false_ne_true)]
    obtain ⟨t, ht⟩ := escapeMetricName_of_ne_nil _ hesc
    simp only [handleEvent, Event.metricName, Event.metricType, Event.labels, hact,
      ite_false, hpres, Bool.false_eq_true, ht, hneg, ite_true]

/-- Witness for C9: an unmapped negative counter event against the empty
exporter leaves it untouched and bumps the two counts. -/
theorem C9_witness :
    handleEvent ⟨fun _ _ => (none, [], false), ⟨TimerType.summary, [], []⟩⟩
      (fun _ _ => true) Exporter.empty DispatchStats.zero
      (Event.counter (strOf "a") (GoFloat.finite (-1)) []) =
      some (Exporter.empty,
        DispatchStats.zero.incEventsUnmapped.incIllegalNegativeCounter) := by
  have h := C9_negative_counter_dropped
    ⟨fun _ _ => (none, [], false), ⟨TimerType.summary, [], []⟩⟩ (fun _ _ => true)
    Exporter.empty DispatchStats.zero (strOf "a") (GoFloat.finite (-1)) [] (by decide)
    (by decide) (by decide)
  rw [h]
  rfl

/-- C2: the claim says every container kind declines to cache when
registration of a newly constructed object fails, so every later `Get`
under the same fingerprint re-attempts registration and fails again.
`CounterContainer.Get` (and the gauge and summary containers, which share
its shape) does exactly that — first conjunct.  But
`HistogramContainer.Get` stores the histogram into its cache BEFORE
attempting registration: against an always-refusing registry the first
`Get` returns an error yet caches the object, and the second `Get`
returns it with no error and no registration attempt — refuting the claim
for histograms. -/
theorem C2_histogram_caches_despite_failed_registration :
    (CounterContainer.get (fun _ _ => false) [] (strOf "x") [] (strOf "h") =
      (Except.error (), []))
    ∧ (CounterContainer.get (fun _ _ => false)
        (CounterContainer.get (fun _ _ => false) [] (strOf "x") [] (strOf "h")).2
        (strOf "x") [] (strOf "h")).1 = Except.error ()
    ∧ (HistogramContainer.get (fun _ _ => false) ⟨TimerType.summary, [], []⟩ []
        (strOf "x") [] (strOf "h") none).1 = Except.error ()
    ∧ (HistogramContainer.get (fun _ _ => false) ⟨TimerType.summary, [], []⟩ []
        (strOf "x") [] (strOf "h") none).2 ≠ []
    ∧ (HistogramContainer.get (fun _ _ => false) ⟨TimerType.summary, [], []⟩
        (HistogramContainer.get (fun _ _ => false) ⟨TimerType.summary, [], []⟩ []
          (strOf "x") [] (strOf "h") none).2
        (strOf "x") [] (strOf "h") none).1 =
      Except.ok ⟨strOf "x", strOf "h", [], [], []⟩ := by
  refine ⟨by decide, by decide, by decide, by decide, by decide⟩

end Statsd
